import Mathlib

/-!
Verification of the LawDoc SaaS retrieval-orchestration server
(`server.py`) against its natural-language specification.

The embedding models the orchestration code faithfully:
* Python `str.split("\n\n")` / `str.strip()` on character lists;
* Python `base64.b64decode` (permissive mode, as called by the server);
* Python `bytes.decode("utf-8", errors="ignore")`;
* the Chroma store as an association list from collection names to
  partitions (lists of chunk records); `get_collection`/`create_collection`,
  `upsert`, `count` and `query` follow the store's documented contract,
  with the similarity search itself (delegated to the store) treated as
  an opaque oracle parameter;
* the remote embedding and chat capabilities as oracle functions returning
  an HTTP status plus a payload; embedding vectors are opaque payloads and
  are modelled as integer lists.
-/

/-! ## Python string primitives -/

/-- Unicode whitespace as recognised by Python's `str.strip()`. -/
def isPySpace (c : Char) : Bool :=
  let n := c.toNat
  (9 ≤ n && n ≤ 13) || (28 ≤ n && n ≤ 32) || n == 0x85 || n == 0xA0 ||
    n == 0x1680 || (0x2000 ≤ n && n ≤ 0x200A) || n == 0x2028 || n == 0x2029 ||
    n == 0x202F || n == 0x205F || n == 0x3000

/-- Python `str.strip()` on a character list: drop whitespace from both ends. -/
def stripL (l : List Char) : List Char :=
  ((l.dropWhile isPySpace).reverse.dropWhile isPySpace).reverse

/-- Python `str.strip()`. -/
def pyStrip (s : String) : String :=
  ⟨stripL s.data⟩

/-- Worker for Python `str.split("\n\n")`: scan left to right, cutting at each
leftmost non-overlapping occurrence of two consecutive newlines. -/
def splitNNAux (acc : List Char) : List Char → List (List Char)
  | [] => [acc.reverse]
  | '\n' :: '\n' :: rest => acc.reverse :: splitNNAux [] rest
  | c :: rest => splitNNAux (c :: acc) rest

/-- Python `text.split("\n\n")` on a character list. -/
def splitNN (l : List Char) : List (List Char) :=
  splitNNAux [] l

/-- Python `text.split("\n\n")`. -/
def pySplitNN (s : String) : List String :=
  (splitNN s.data).map (fun l => ⟨l⟩)

/-- `true` when the character list contains no two consecutive newlines
(no occurrence of the `"\n\n"` separator). -/
def noNN : List Char → Bool
  | '\n' :: '\n' :: _ => false
  | _ :: rest => noNN rest
  | [] => true

/-- Python `s[:n]` on a string: the first `n` characters. -/
def strTake (s : String) (n : Nat) : String :=
  ⟨s.data.take n⟩

/-! ## Python `base64.b64decode` (permissive mode, `validate=False`) -/

/-- Value of a standard base64 alphabet character. -/
def b64Val (c : Char) : Option Nat :=
  if 'A' ≤ c && c ≤ 'Z' then some (c.toNat - 65)
  else if 'a' ≤ c && c ≤ 'z' then some (c.toNat - 97 + 26)
  else if '0' ≤ c && c ≤ '9' then some (c.toNat - 48 + 52)
  else if c = '+' then some 62
  else if c = '/' then some 63
  else none

/-- CPython `binascii.a2b_base64` in non-strict mode: non-alphabet characters
are skipped; `=` padding closes a quad once at least two data characters are
present; a dangling quad at the end is an error (`none`). State: `qp` is the
position in the current quad, `lc` the pending bits, `pads` the count of
padding characters seen since the last data character, `out` the (reversed)
output bytes. -/
def a2bB64 (qp lc pads : Nat) (out : List Nat) : List Char → Option (List Nat)
  | [] => if qp = 0 then some out.reverse else none
  | c :: rest =>
    if c = '=' then
      if 2 ≤ qp then
        if 4 ≤ qp + (pads + 1) then some out.reverse
        else a2bB64 qp lc (pads + 1) out rest
      else a2bB64 qp lc pads out rest
    else
      match b64Val c with
      | none => a2bB64 qp lc pads out rest
      | some v =>
        match qp with
        | 0 => a2bB64 1 v 0 out rest
        | 1 => a2bB64 2 (v % 16) 0 ((lc * 4 + v / 16) :: out) rest
        | 2 => a2bB64 3 (v % 4) 0 ((lc * 16 + v / 4) :: out) rest
        | _ => a2bB64 0 0 0 ((lc * 64 + v) :: out) rest

/-- Python `base64.b64decode(s)` as called by the server: the string is first
encoded as ASCII (non-ASCII input raises, i.e. `none`), then decoded
permissively. `none` models the exception path. -/
def pyB64Decode (s : String) : Option (List Nat) :=
  if s.data.all (fun c => c.toNat ≤ 127) then a2bB64 0 0 0 [] s.data
  else none

/-! ## Python `bytes.decode("utf-8", errors="ignore")` -/

/-- Is `b` a UTF-8 continuation byte? -/
def isContB (b : Nat) : Bool :=
  0x80 ≤ b && b ≤ 0xBF

/-- Lower bound for the first continuation byte of a multi-byte sequence. -/
def contLo (b : Nat) : Nat :=
  if b = 0xE0 then 0xA0 else if b = 0xF0 then 0x90 else 0x80

/-- Upper bound for the first continuation byte of a multi-byte sequence. -/
def contHi (b : Nat) : Nat :=
  if b = 0xED then 0x9F else if b = 0xF4 then 0x8F else 0xBF

/-- CPython UTF-8 decoding with the `ignore` error handler: decode maximal
valid sequences; on an invalid or truncated sequence drop the offending
prefix and resume at the first byte that is not part of it. The `fuel`
argument only licenses the recursion (every step consumes at least one
byte, so `fuel = length` never runs out); see `utf8DecodeIgnore`. -/
def utf8Go : Nat → List Nat → List Char
  | 0, _ => []
  | _, [] => []
  | fuel + 1, b :: rest =>
    if b < 0x80 then Char.ofNat b :: utf8Go fuel rest
    else if 0xC2 ≤ b && b ≤ 0xDF then
      match rest with
      | [] => []
      | c1 :: rest1 =>
        if isContB c1 then
          Char.ofNat ((b - 0xC0) * 64 + (c1 - 0x80)) :: utf8Go fuel rest1
        else utf8Go fuel rest
    else if 0xE0 ≤ b && b ≤ 0xEF then
      match rest with
      | [] => []
      | c1 :: rest1 =>
        if contLo b ≤ c1 && c1 ≤ contHi b then
          match rest1 with
          | [] => []
          | c2 :: rest2 =>
            if isContB c2 then
              Char.ofNat ((b - 0xE0) * 4096 + (c1 - 0x80) * 64 + (c2 - 0x80)) ::
                utf8Go fuel rest2
            else utf8Go fuel rest1
        else utf8Go fuel rest
    else if 0xF0 ≤ b && b ≤ 0xF4 then
      match rest with
      | [] => []
      | c1 :: rest1 =>
        if contLo b ≤ c1 && c1 ≤ contHi b then
          match rest1 with
          | [] => []
          | c2 :: rest2 =>
            if isContB c2 then
              match rest2 with
              | [] => []
              | c3 :: rest3 =>
                if isContB c3 then
                  Char.ofNat ((b - 0xF0) * 262144 + (c1 - 0x80) * 4096 +
                      (c2 - 0x80) * 64 + (c3 - 0x80)) :: utf8Go fuel rest3
                else utf8Go fuel rest2
            else utf8Go fuel rest1
        else utf8Go fuel rest
    else utf8Go fuel rest

/-- CPython UTF-8 decoding with the `ignore` error handler. -/
def utf8DecodeIgnore (bs : List Nat) : List Char :=
  utf8Go bs.length bs

/-- Decode bytes to a string, Python `bytes.decode("utf-8", errors="ignore")`. -/
def utf8DecodeIgnoreStr (bs : List Nat) : String :=
  ⟨utf8DecodeIgnore bs⟩

/-! ## The chunker (server.py line 116) -/

/-- The chunker on a character list:
`[c.strip() for c in text.split("\n\n") if c.strip()]`. -/
def chunkL (l : List Char) : List (List Char) :=
  (splitNN l).filterMap (fun c => let s := stripL c; if s ≠ [] then some s else none)

/-- The chunker: `[c.strip() for c in text.split("\n\n") if c.strip()]`. -/
def chunkStr (text : String) : List String :=
  (pySplitNN text).filterMap (fun c => let s := pyStrip c; if s ≠ "" then some s else none)

/-! ## Data model: store, collections, records -/

/-- Embedding vectors are opaque payloads (floats in the source); the
orchestration logic never inspects them, so they are modelled as integer
lists. -/
abbrev Vec := List Int

/-- A metadata dict, e.g. `{"filename": ...}`. -/
abbrev Meta := List (String × String)

/-- Python `m.get(k, default)` on a metadata dict. -/
def metaGet (m : Meta) (k d : String) : String :=
  (m.lookup k).getD d

/-- One stored chunk: id, document text, metadata, embedding vector. -/
structure ChunkRec where
  id : String
  document : String
  metadata : Meta
  embedding : Vec
deriving DecidableEq

/-- A collection's contents. -/
abbrev Partition := List ChunkRec

/-- The persistent store: collection name to partition. -/
abbrev Store := List (String × Partition)

/-- `collection_name`: `f"docs_{client_id}".lower()`. -/
def collection_name (client_id : String) : String :=
  ("docs_" ++ client_id).toLower

/-- `ensure_collection`: fetch the collection, creating it (empty) when the
lookup fails. Returns the updated store; the handle is the collection name. -/
def ensure_collection (st : Store) (client_id : String) : Store :=
  let name := collection_name client_id
  if (st.lookup name).isSome then st else (name, []) :: st

/-- Contents of a named collection (empty when absent). -/
def getPartition (st : Store) (name : String) : Partition :=
  (st.lookup name).getD []

/-- Replace the contents of a named collection. -/
def setPartition (st : Store) (name : String) (p : Partition) : Store :=
  st.map (fun kv => if kv.1 = name then (kv.1, p) else kv)

/-- Chroma `upsert` of a single record: overwrite the record with the same id
when present, otherwise append. -/
def upsertOne (p : Partition) (r : ChunkRec) : Partition :=
  if p.any (fun x => x.id = r.id) then
    p.map (fun x => if x.id = r.id then r else x)
  else p ++ [r]

/-- Chroma `col.upsert(ids=…, documents=…, metadatas=…, embeddings=…)`:
the four parallel lists are zipped into records and upserted in order. -/
def upsertMany (p : Partition) (ids docs : List String) (metas : List Meta)
    (embs : List Vec) : Partition :=
  (ids.zip (docs.zip (metas.zip embs))).foldl
    (fun p t => upsertOne p ⟨t.1, t.2.1, t.2.2.1, t.2.2.2⟩) p

/-! ## Remote capabilities and request models -/

/-- Server configuration that the request handlers read: the optional
`ACTION_KEY` shared secret (`os.getenv` yields `none` when unset). -/
structure Config where
  actionKey : Option String

/-- Python truthiness of an `Optional[str]`: `None` and `""` are falsy. -/
def pyTruthy : Option String → Bool
  | none => false
  | some s => s ≠ ""

/-- An `HTTPException`: status code and detail. -/
structure HErr where
  status : Nat
  detail : String
deriving DecidableEq

/-- `check_action_key`: `if ACTION_KEY and x_api_key != ACTION_KEY: raise 401`.
Returns the exception raised, if any. -/
def check_action_key (actionKey xApiKey : Option String) : Option HErr :=
  match actionKey with
  | none => none
  | some k => if k ≠ "" ∧ xApiKey ≠ some k then some ⟨401, "Invalid action key"⟩ else none

/-- Response of the remote embeddings endpoint: HTTP status and, on success,
one vector per input text (per the embedding capability's contract). -/
structure EmbedResp where
  status : Nat
  vectors : List Vec

/-- `embed_texts`: call the remote embedding capability; a non-200 status
raises a 502 `HTTPException`. -/
def embed_texts (svc : List String → EmbedResp) (texts : List String) :
    Except HErr (List Vec) :=
  let r := svc texts
  if r.status ≠ 200 then .error ⟨502, "Embed failed"⟩ else .ok r.vectors

/-- Response of the remote chat endpoint: HTTP status and generated text. -/
structure ChatResp where
  status : Nat
  content : String

/-- `chat_answer`: call the remote generation capability; a non-200 status
raises a 502 `HTTPException`. -/
def chat_answer (svc : String → String → ChatResp) (question context : String) :
    Except HErr String :=
  let r := svc question context
  if r.status ≠ 200 then .error ⟨502, "Chat failed"⟩ else .ok r.content

/-- Request body of `/ingest_json`. -/
structure IngestItem where
  client : String
  filename : String
  content_b64 : String

/-- Request body of `/ask` (`top_k` defaults to 6). -/
structure AskRequest where
  client : String
  q : String
  top_k : Int := 6

/-- Result of the store's similarity query: for each query text, a ranked
list of documents and the parallel list of metadatas. -/
structure QueryResult where
  documents : List (List String)
  metadatas : List (List Meta)

/-- The store's query-by-similarity operation, `col.query(...)`; delegated to
the store, hence an oracle over (store, collection name, query text,
`n_results`). -/
abbrev QueryFn := Store → String → String → Int → QueryResult

/-! ## Endpoints -/

/-- Response of `GET /stats`. -/
structure StatsResp where
  client : String
  count : Nat
deriving DecidableEq

/-- `GET /stats?client=...`: resolve the collection and report its count. -/
def stats (st : Store) (client : String) : StatsResp × Store :=
  let st1 := ensure_collection st client
  (⟨client, (getPartition st1 (collection_name client)).length⟩, st1)

/-- One hit of `GET /search`: `{"filename": meta.get("filename"),
"preview": doc[:240]}` (`get` without default yields `None`, i.e. `none`). -/
structure SearchHit where
  filename : Option String
  preview : String
deriving DecidableEq

/-- Response of `GET /search`. -/
structure SearchResp where
  client : String
  q : String
  hits : List SearchHit
deriving DecidableEq

/-- `GET /search?client=...&q=...&top_k=...`: similarity probe, no auth, no
generation call. Indexing `results[...][0]` on an empty result list would
raise in Python (a 500); that path is modelled as `.error`. -/
def search (queryFn : QueryFn) (st : Store) (client q : String) (top_k : Int) :
    Except HErr SearchResp × Store :=
  let st1 := ensure_collection st client
  let r := queryFn st1 (collection_name client) q top_k
  match r.documents, r.metadatas with
  | ds :: _, ms :: _ =>
    (.ok ⟨client, q, (ds.zip ms).map (fun p =>
      ⟨(p.2.lookup "filename"), strTake p.1 240⟩)⟩, st1)
  | _, _ => (.error ⟨500, "Internal Server Error"⟩, st1)

/-- Response of `POST /ingest_json`. -/
structure IngestResp where
  ok : Bool
  client : String
  filename : String
  added : Nat
deriving DecidableEq

/-- Observable outcome of `POST /ingest_json`: the HTTP result, the store
afterwards, and the calls made to the embedding capability (each recorded
by its input text list). -/
structure IngestOut where
  resp : Except HErr IngestResp
  store : Store
  embedCalls : List (List String)

/-- `POST /ingest_json`: auth check, base64-decode, permissive UTF-8 decode,
chunk, embed (batched), then resolve the collection and upsert
`ids = [f"{filename}:{i}" for i in range(len(chunks))]` with
`metadatas = [{"filename": filename}] * len(chunks)`. -/
def ingest_json (cfg : Config) (embedSvc : List String → EmbedResp) (st : Store)
    (item : IngestItem) (xApiKey : Option String) : IngestOut :=
  match check_action_key cfg.actionKey xApiKey with
  | some e => ⟨.error e, st, []⟩
  | none =>
    match pyB64Decode item.content_b64 with
    | none => ⟨.error ⟨400, "Invalid base64"⟩, st, []⟩
    | some bytes =>
      let text := utf8DecodeIgnoreStr bytes
      let chunks := chunkStr text
      if chunks = [] then ⟨.error ⟨400, "No text chunks"⟩, st, []⟩
      else
        match embed_texts embedSvc chunks with
        | .error e => ⟨.error e, st, [chunks]⟩
        | .ok vecs =>
          let st1 := ensure_collection st item.client
          let name := collection_name item.client
          let ids := (List.range chunks.length).map
            (fun i => item.filename ++ ":" ++ toString i)
          let metas := chunks.map (fun _ => [("filename", item.filename)])
          let st2 := setPartition st1 name
            (upsertMany (getPartition st1 name) ids chunks metas vecs)
          ⟨.ok ⟨true, item.client, item.filename, chunks.length⟩, st2, [chunks]⟩

/-- A JSON value appearing in an `/ask` source entry. -/
inductive JVal where
  | s : String → JVal
  | n : Nat → JVal
deriving DecidableEq

/-- A source entry of `/ask`: a JSON dict, kept as an ordered key-value list
so that key names are observable. -/
abbrev SourceEntry := List (String × JVal)

/-- Response of `POST /ask`. -/
structure AskResp where
  answer : String
  sources : List SourceEntry
deriving DecidableEq

/-- Observable outcome of `POST /ask`: the HTTP result, the store afterwards,
and the calls made to the generation capability (each recorded by its
(question, context) arguments). -/
structure AskOut where
  resp : Except HErr AskResp
  store : Store
  genCalls : List (String × String)

/-- The fixed sentinel answer for zero retrieval hits. -/
def sentinelAnswer : String := "Not found in the provided documents."

/-- `POST /ask`: auth check, resolve collection, similarity query; on zero
hits return the sentinel without calling generation; otherwise build the
labelled context with `enumerate(zip(docs, metas), start=1)`, call the
generation capability once, and return answer plus sources. Indexing
`r["metadatas"][0]` on an empty list would raise in Python (a 500); that
path is modelled as `.error`. -/
def ask (cfg : Config) (queryFn : QueryFn) (chatSvc : String → String → ChatResp)
    (st : Store) (req : AskRequest) (xApiKey : Option String) : AskOut :=
  match check_action_key cfg.actionKey xApiKey with
  | some e => ⟨.error e, st, []⟩
  | none =>
    let st1 := ensure_collection st req.client
    let r := queryFn st1 (collection_name req.client) req.q req.top_k
    match r.documents with
    | [] => ⟨.ok ⟨sentinelAnswer, []⟩, st1, []⟩
    | docs :: _ =>
      if docs = [] then ⟨.ok ⟨sentinelAnswer, []⟩, st1, []⟩
      else
        match r.metadatas with
        | [] => ⟨.error ⟨500, "Internal Server Error"⟩, st1, []⟩
        | metas :: _ =>
          let pairs := docs.zip metas
          let context := ((pairs.enumFrom 1).map (fun p =>
            "[" ++ toString p.1 ++ "] " ++ metaGet p.2.2 "filename" "unknown" ++
              "\n" ++ p.2.1 ++ "\n\n")).foldl (fun a b => a ++ b) ""
          let sources := (pairs.enumFrom 1).map (fun p =>
            [("id", JVal.n p.1),
             ("filename", JVal.s (metaGet p.2.2 "filename" "unknown")),
             ("snippet", JVal.s (strTake p.2.1 240))])
          match chat_answer chatSvc req.q context with
          | .error e => ⟨.error e, st1, [(req.q, context)]⟩
          | .ok answer => ⟨.ok ⟨answer, sources⟩, st1, [(req.q, context)]⟩


/-! ## Claim-side definitions -/

/-- No occurrence of the `"\n\n"` separator: no two adjacent newlines. -/
def sepFree (l : List Char) : Prop :=
  List.Chain' (fun a b => ¬(a = '\n' ∧ b = '\n')) l

instance (l : List Char) : Decidable (sepFree l) := by
  unfold sepFree; infer_instance

/-- Joining a list of chunks with a blank line (`"\n\n"`), the claim-side
join operation. -/
def joinBlank (cs : List String) : String :=
  ⟨List.intercalate ['\n', '\n'] (cs.map String.data)⟩

/-- The context block of §4.4: the concatenation, in order, of
`"[<rank>] <filename>\n<document>\n\n"` over the hits, ranks counting up
from `rank`. -/
def contextSpec (rank : Nat) : List (String × Meta) → String
  | [] => ""
  | (d, m) :: rest =>
    "[" ++ toString rank ++ "] " ++ metaGet m "filename" "unknown" ++ "\n" ++ d ++
      "\n\n" ++ contextSpec (rank + 1) rest

/-- The source list built by `/ask`: for each hit, in order, a dict with the
1-based rank (under key `"id"`), the hit's filename, and the first 240
characters of the document. -/
def sourcesSpec (rank : Nat) : List (String × Meta) → List SourceEntry
  | [] => []
  | (d, m) :: rest =>
    [("id", JVal.n rank), ("filename", JVal.s (metaGet m "filename" "unknown")),
      ("snippet", JVal.s (strTake d 240))] :: sourcesSpec (rank + 1) rest

/-! ## Properties of the chunker -/

theorem sepFree_reverse {l : List Char} (h : sepFree l) : sepFree l.reverse := by
  rw [sepFree, List.chain'_reverse]
  exact h.imp (fun a b hab => by rw [flip]; tauto)

theorem splitNNAux_sep (acc rest) :
    splitNNAux acc ('\n' :: '\n' :: rest) = acc.reverse :: splitNNAux [] rest := rfl

theorem splitNNAux_cons (acc : List Char) (c : Char) (rest : List Char)
    (h : ¬(c = '\n' ∧ rest.head? = some '\n')) :
    splitNNAux acc (c :: rest) = splitNNAux (c :: acc) rest := by
  rw [splitNNAux.eq_def]
  split
  · rename_i heq
    exact absurd heq (by simp)
  · rename_i heq
    rw [List.cons.injEq] at heq
    exact absurd ⟨heq.1, by simp [heq.2]⟩ h
  · rename_i heq
    rw [List.cons.injEq] at heq
    obtain ⟨h1, h2⟩ := heq
    subst h1; subst h2
    rfl

theorem splitNNAux_ne_nil : ∀ (t acc : List Char), splitNNAux acc t ≠ []
  | [], _ => by simp [splitNNAux]
  | c :: rest, acc => by
    by_cases h : c = '\n' ∧ rest.head? = some '\n'
    · obtain ⟨hc, hr⟩ := h
      subst hc
      cases rest with
      | nil => simp at hr
      | cons b t =>
        have hb : b = '\n' := by simpa using hr
        subst hb
        rw [splitNNAux_sep]
        simp
    · rw [splitNNAux_cons acc c rest h]
      exact splitNNAux_ne_nil rest (c :: acc)

/-- Scanning input with no separator occurrence yields a single piece. -/
theorem splitNNAux_no_sep : ∀ (t acc : List Char), sepFree t →
    splitNNAux acc t = [acc.reverse ++ t]
  | [], acc, _ => by simp [splitNNAux]
  | c :: rest, acc, h => by
    have hg : ¬(c = '\n' ∧ rest.head? = some '\n') := by
      rintro ⟨hc, hr⟩
      subst hc
      cases rest with
      | nil => simp at hr
      | cons b t =>
        have hb : b = '\n' := by simpa using hr
        subst hb
        exact (List.chain'_cons.mp h).1 ⟨rfl, rfl⟩
    rw [splitNNAux_cons acc c rest hg, splitNNAux_no_sep rest (c :: acc) h.tail]
    simp

/-- Scanning a separator-free piece (not ending in a newline) followed by the
separator emits exactly that piece and continues after the separator. -/
theorem splitNNAux_through : ∀ (u acc v : List Char), sepFree u →
    u.getLast? ≠ some '\n' →
    splitNNAux acc (u ++ '\n' :: '\n' :: v) = (acc.reverse ++ u) :: splitNNAux [] v
  | [], acc, v, _, _ => by simp [splitNNAux_sep]
  | a :: u', acc, v, h, hl => by
    have hg : ¬(a = '\n' ∧ (u' ++ '\n' :: '\n' :: v).head? = some '\n') := by
      rintro ⟨ha, hh⟩
      subst ha
      cases u' with
      | nil => exact hl (by simp)
      | cons b u'' =>
        have hb : b = '\n' := by simpa using hh
        subst hb
        exact (List.chain'_cons.mp h).1 ⟨rfl, rfl⟩
    have hl' : u'.getLast? ≠ some '\n' := by
      match u' with
      | [] => simp
      | b :: u'' => rw [← List.getLast?_cons_cons (a := a)]; exact hl
    rw [List.cons_append, splitNNAux_cons acc a _ hg,
      splitNNAux_through u' (a :: acc) v h.tail hl']
    simp

/-- Every piece produced by the separator scan is separator-free, given the
scan invariant on the accumulator. -/
theorem splitNNAux_sepFree : ∀ (t acc : List Char), sepFree acc →
    (acc.head? = some '\n' → t.head? ≠ some '\n') →
    ∀ p ∈ splitNNAux acc t, sepFree p
  | [], acc, hacc, _ => by
    simp only [splitNNAux, List.mem_singleton]
    rintro p rfl
    exact sepFree_reverse hacc
  | c :: rest, acc, hacc, hinv => by
    by_cases h : c = '\n' ∧ rest.head? = some '\n'
    · obtain ⟨hc, hr⟩ := h
      subst hc
      cases rest with
      | nil => simp at hr
      | cons b t =>
        have hb : b = '\n' := by simpa using hr
        subst hb
        rw [splitNNAux_sep]
        rintro p hp
        rcases List.mem_cons.mp hp with rfl | hp'
        · exact sepFree_reverse hacc
        · exact splitNNAux_sepFree t [] List.chain'_nil (by simp) p hp'
    · rw [splitNNAux_cons acc c rest h]
      have hacc' : sepFree (c :: acc) := by
        rw [sepFree, List.chain'_cons']
        refine ⟨?_, hacc⟩
        intro y hy
        rintro ⟨hc, hy'⟩
        subst hc
        subst hy'
        exact hinv hy rfl
      have hinv' : (c :: acc).head? = some '\n' → rest.head? ≠ some '\n' := by
        intro hch hrh
        exact h ⟨by simpa using hch, hrh⟩
      exact splitNNAux_sepFree rest (c :: acc) hacc' hinv'

/-- Every piece of `splitNN` is separator-free. -/
theorem splitNN_sepFree (l : List Char) : ∀ p ∈ splitNN l, sepFree p :=
  splitNNAux_sepFree l [] List.chain'_nil (by simp)

theorem intercalate_cons_of_ne_nil {α : Type} (sep a : List α) {l : List (List α)}
    (h : l ≠ []) :
    List.intercalate sep (a :: l) = a ++ sep ++ List.intercalate sep l := by
  cases l with
  | nil => exact absurd rfl h
  | cons b t =>
    rw [List.intercalate, List.intercalate, List.intersperse_cons₂]
    simp

/-- Joining the pieces of the scan with the separator restores the input. -/
theorem intercalate_splitNNAux : ∀ (t acc : List Char),
    List.intercalate ['\n', '\n'] (splitNNAux acc t) = acc.reverse ++ t
  | [], acc => by simp [splitNNAux, List.intercalate]
  | c :: rest, acc => by
    by_cases h : c = '\n' ∧ rest.head? = some '\n'
    · obtain ⟨hc, hr⟩ := h
      subst hc
      cases rest with
      | nil => simp at hr
      | cons b t =>
        have hb : b = '\n' := by simpa using hr
        subst hb
        rw [splitNNAux_sep,
          intercalate_cons_of_ne_nil ['\n', '\n'] acc.reverse (splitNNAux_ne_nil t []),
          intercalate_splitNNAux t []]
        simp
    · rw [splitNNAux_cons acc c rest h, intercalate_splitNNAux rest (c :: acc)]
      simp

/-- Joining the pieces of `splitNN` with `"\n\n"` restores the input. -/
theorem intercalate_splitNN (l : List Char) :
    List.intercalate ['\n', '\n'] (splitNN l) = l :=
  intercalate_splitNNAux l []

/-- Splitting a separator-joined list of separator-free pieces, none ending in
a newline, recovers exactly the pieces. -/
theorem splitNN_intercalate : ∀ (cs : List (List Char)), cs ≠ [] →
    (∀ c ∈ cs, sepFree c ∧ c.getLast? ≠ some '\n') →
    splitNN (List.intercalate ['\n', '\n'] cs) = cs
  | [], h, _ => absurd rfl h
  | [c], _, hc => by
    have h1 : List.intercalate ['\n', '\n'] [c] = c := by
      simp [List.intercalate]
    rw [h1, splitNN, splitNNAux_no_sep c [] (hc c (by simp)).1]
    simp
  | c :: c' :: cs', _, hc => by
    have hrec := splitNN_intercalate (c' :: cs') (by simp)
      (fun x hx => hc x (List.mem_cons_of_mem c hx))
    rw [intercalate_cons_of_ne_nil ['\n', '\n'] c (by simp), List.append_assoc, splitNN,
      show ['\n', '\n'] ++ List.intercalate ['\n', '\n'] (c' :: cs') =
        '\n' :: '\n' :: List.intercalate ['\n', '\n'] (c' :: cs') from rfl,
      splitNNAux_through c [] (List.intercalate ['\n', '\n'] (c' :: cs'))
        (hc c (by simp)).1 (hc c (by simp)).2]
    rw [← splitNN, hrec]
    simp

/-! ## Properties of `stripL` -/

theorem dropWhile_head_not {p : Char → Bool} : ∀ (l : List Char) (c : Char),
    (List.dropWhile p l).head? = some c → p c = false
  | [], c => by simp
  | a :: t, c => by
    intro h
    rw [List.dropWhile_cons] at h
    by_cases hp : p a = true
    · rw [if_pos hp] at h
      exact dropWhile_head_not t c h
    · rw [if_neg hp] at h
      simp only [List.head?_cons, Option.some.injEq] at h
      subst h
      exact Bool.eq_false_iff.mpr hp

theorem dropWhile_eq_self_of_head {p : Char → Bool} {l : List Char}
    (h : ∀ c, l.head? = some c → p c = false) : List.dropWhile p l = l := by
  cases l with
  | nil => rfl
  | cons a t =>
    rw [List.dropWhile_cons, if_neg]
    rw [h a rfl]
    simp

theorem stripL_sepFree {l : List Char} (h : sepFree l) : sepFree (stripL l) := by
  rw [stripL]
  exact sepFree_reverse (List.Chain'.suffix
    (sepFree_reverse (List.Chain'.suffix h (List.dropWhile_suffix isPySpace)))
    (List.dropWhile_suffix isPySpace))

theorem stripL_getLast_not {l : List Char} {c : Char}
    (h : (stripL l).getLast? = some c) : isPySpace c = false := by
  rw [stripL, List.getLast?_reverse] at h
  exact dropWhile_head_not _ c h

theorem stripL_getLast_ne_nl {l : List Char} : (stripL l).getLast? ≠ some '\n' := by
  intro h
  have := stripL_getLast_not h
  simp [isPySpace] at this

theorem stripL_idem (l : List Char) : stripL (stripL l) = stripL l := by
  have hzrev : stripL l = (List.dropWhile isPySpace
      (List.dropWhile isPySpace l).reverse).reverse := rfl
  have h1 : List.dropWhile isPySpace (stripL l) = stripL l := by
    apply dropWhile_eq_self_of_head
    intro c hc
    rw [hzrev, List.head?_reverse] at hc
    obtain ⟨u, hu⟩ := List.dropWhile_suffix (l := (List.dropWhile isPySpace l).reverse)
      (p := isPySpace)
    have h2 : (List.dropWhile isPySpace l).reverse.getLast? = some c := by
      rw [← hu, List.getLast?_append, hc]
      rfl
    rw [List.getLast?_reverse] at h2
    exact dropWhile_head_not l c h2
  have h3 : List.dropWhile isPySpace
      (List.dropWhile isPySpace (List.dropWhile isPySpace l).reverse) =
      List.dropWhile isPySpace (List.dropWhile isPySpace l).reverse := by
    apply dropWhile_eq_self_of_head
    intro c hc
    exact dropWhile_head_not (List.dropWhile isPySpace l).reverse c hc
  calc stripL (stripL l)
      = ((List.dropWhile isPySpace (stripL l)).reverse.dropWhile isPySpace).reverse := rfl
    _ = ((stripL l).reverse.dropWhile isPySpace).reverse := by rw [h1]
    _ = stripL l := by
        rw [hzrev, List.reverse_reverse, h3]

/-! ## Chunker round trip -/

/-- Every chunk is non-empty, strip-fixed, separator-free, and does not end
in a newline. -/
theorem chunkL_mem {l : List Char} : ∀ c ∈ chunkL l,
    c ≠ [] ∧ stripL c = c ∧ sepFree c ∧ c.getLast? ≠ some '\n' := by
  intro c hc
  rw [chunkL, List.mem_filterMap] at hc
  obtain ⟨a, ha, hfa⟩ := hc
  by_cases hs : stripL a ≠ []
  · simp only [if_pos hs, Option.some.injEq] at hfa
    subst hfa
    exact ⟨hs, stripL_idem a, stripL_sepFree (splitNN_sepFree l a ha),
      stripL_getLast_ne_nl⟩
  · simp [if_neg hs] at hfa

theorem filterMap_strip_fixed : ∀ (cs : List (List Char)),
    (∀ c ∈ cs, stripL c = c ∧ c ≠ []) →
    cs.filterMap (fun c => let s := stripL c; if s ≠ [] then some s else none) = cs
  | [], _ => rfl
  | c :: cs', h => by
    obtain ⟨hfix, hne⟩ := h c (by simp)
    rw [List.filterMap_cons]
    simp only [hfix, if_pos hne]
    rw [filterMap_strip_fixed cs' (fun x hx => h x (List.mem_cons_of_mem c hx))]

/-- Chunking the blank-line join of a chunking yields the same chunks. -/
theorem chunkL_join_chunkL (l : List Char) :
    chunkL (List.intercalate ['\n', '\n'] (chunkL l)) = chunkL l := by
  by_cases h : chunkL l = []
  · rw [h]
    rfl
  · have hsplit := splitNN_intercalate (chunkL l) h
      (fun c hc => ⟨(chunkL_mem c hc).2.2.1, (chunkL_mem c hc).2.2.2⟩)
    rw [chunkL, hsplit]
    exact filterMap_strip_fixed (chunkL l)
      (fun c hc => ⟨(chunkL_mem c hc).2.1, (chunkL_mem c hc).1⟩)

/-! ## String-level bridges -/

theorem chunkStr_eq_chunkL (t : String) :
    chunkStr t = (chunkL t.data).map (fun l => ⟨l⟩) := by
  rw [chunkStr, chunkL, pySplitNN, List.filterMap_map, List.map_filterMap]
  congr 1
  funext x
  by_cases hs : stripL x = []
  · have : pyStrip ⟨x⟩ = "" := by
      rw [pyStrip]
      exact congrArg String.mk hs
    simp [Function.comp, this, hs]
  · have : pyStrip ⟨x⟩ ≠ "" := by
      rw [pyStrip]
      intro hcon
      exact hs (by simpa [String.ext_iff] using hcon)
    simp only [Function.comp, pyStrip] at this ⊢
    simp [this, hs]

theorem data_chunkStr (t : String) : (chunkStr t).map String.data = chunkL t.data := by
  rw [chunkStr_eq_chunkL, List.map_map]
  have : (String.data ∘ fun l : List Char => (⟨l⟩ : String)) = id := by
    funext x
    rfl
  rw [this, List.map_id]

theorem mk_eq_empty_iff (x : List Char) : (⟨x⟩ : String) = "" ↔ x = [] := by
  rw [String.ext_iff]

theorem chunk_filterMap_eq_filter (xs : List (List Char)) :
    xs.filterMap (fun c => let s := stripL c; if s ≠ [] then some s else none) =
    (xs.map stripL).filter (fun s => s ≠ []) := by
  induction xs with
  | nil => rfl
  | cons c cs ih =>
    rw [List.filterMap_cons, List.map_cons, List.filter_cons]
    by_cases hs : stripL c = []
    · simp only [hs]
      rw [ih]
      simp
    · simp only [if_pos hs, hs]
      rw [ih]
      simp [hs]

/-- C4: for every input string, the chunker produces exactly the result of
splitting on two consecutive newlines, trimming whitespace from each piece
and discarding empty results, in original order. The split is characterised
by: joining the pieces back with the separator restores the input, and no
piece contains the separator. -/
theorem chunker_spec (text : String) :
    chunkStr text = ((pySplitNN text).map pyStrip).filter (fun s => s ≠ "") ∧
    joinBlank (pySplitNN text) = text ∧
    ∀ p ∈ pySplitNN text, sepFree p.data := by
  refine ⟨?_, ?_, ?_⟩
  · rw [chunkStr_eq_chunkL, chunkL, chunk_filterMap_eq_filter, pySplitNN, List.map_map]
    have h1 : (pyStrip ∘ fun l : List Char => (⟨l⟩ : String)) =
        (fun l : List Char => (⟨l⟩ : String)) ∘ stripL := by
      funext x
      rfl
    rw [h1, ← List.map_map]
    conv_rhs => rw [List.filter_map]
    congr 1
    apply List.filter_congr
    intro x _
    simp [Function.comp, mk_eq_empty_iff]
  · rw [joinBlank, pySplitNN, List.map_map]
    have h1 : (String.data ∘ fun l : List Char => (⟨l⟩ : String)) = id := by
      funext x
      rfl
    rw [h1, List.map_id, intercalate_splitNN]
  · intro p hp
    rw [pySplitNN, List.mem_map] at hp
    obtain ⟨q, hq, rfl⟩ := hp
    exact splitNN_sepFree text.data q hq

/-- C4 witness: the theorem instantiated at a concrete document. -/
theorem chunker_spec_witness :
    (chunkStr " a \n\nb\nc\n\n" =
      ((pySplitNN " a \n\nb\nc\n\n").map pyStrip).filter (fun s => s ≠ "")) ∧
    joinBlank (pySplitNN " a \n\nb\nc\n\n") = " a \n\nb\nc\n\n" ∧
    sepFree "b\nc".data :=
  ⟨(chunker_spec " a \n\nb\nc\n\n").1, (chunker_spec " a \n\nb\nc\n\n").2.1,
    (chunker_spec " a \n\nb\nc\n\n").2.2 "b\nc" (by decide)⟩

/-- C8: chunking is idempotent on its own output: joining the chunks with a
blank line and chunking again yields the same chunk sequence. -/
theorem chunk_idempotent (text : String) :
    chunkStr (joinBlank (chunkStr text)) = chunkStr text := by
  have hdata : (joinBlank (chunkStr text)).data =
      List.intercalate ['\n', '\n'] (chunkL text.data) := by
    rw [joinBlank, data_chunkStr]
  rw [chunkStr_eq_chunkL, hdata, chunkL_join_chunkL, ← chunkStr_eq_chunkL]

/-! ## Claims about authentication -/

/-- C7: when a (non-empty) shared secret is configured, every `/ingest_json`
and `/ask` request whose `x-api-key` is missing or different is rejected
with 401 before any work — the store is unchanged and no embedding or
generation call is made — and a request carrying exactly the secret passes
the check. -/
theorem action_key_enforced (k : String) (hk : k ≠ "")
    (embedSvc : List String → EmbedResp) (queryFn : QueryFn)
    (chatSvc : String → String → ChatResp) (st : Store) (item : IngestItem)
    (req : AskRequest) (xkey : Option String) :
    (xkey ≠ some k →
      ingest_json ⟨some k⟩ embedSvc st item xkey =
        ⟨.error ⟨401, "Invalid action key"⟩, st, []⟩ ∧
      ask ⟨some k⟩ queryFn chatSvc st req xkey =
        ⟨.error ⟨401, "Invalid action key"⟩, st, []⟩) ∧
    check_action_key (some k) (some k) = none := by
  constructor
  · intro hx
    have hc : check_action_key (some k) xkey = some ⟨401, "Invalid action key"⟩ := by
      rw [check_action_key, if_pos ⟨hk, hx⟩]
    constructor
    · rw [ingest_json, hc]
    · rw [ask, hc]
  · rw [check_action_key, if_neg]
    rintro ⟨-, h⟩
    exact h rfl

/-- C7 witness: concrete rejection of a missing key and acceptance of the
configured secret. -/
theorem action_key_enforced_witness :
    ("s" ≠ "" ∧ (none : Option String) ≠ some "s") ∧
    ingest_json ⟨some "s"⟩ (fun ts => ⟨200, ts.map (fun _ => [])⟩) []
        ⟨"c", "f", "YQ=="⟩ none =
      ⟨.error ⟨401, "Invalid action key"⟩, [], []⟩ ∧
    ask ⟨some "s"⟩ (fun _ _ _ _ => ⟨[], []⟩) (fun _ _ => ⟨200, "a"⟩) []
        ⟨"c", "q", 6⟩ none =
      ⟨.error ⟨401, "Invalid action key"⟩, [], []⟩ ∧
    check_action_key (some "s") (some "s") = none :=
  ⟨⟨by decide, by decide⟩,
    (action_key_enforced "s" (by decide) (fun ts => ⟨200, ts.map (fun _ => [])⟩)
      (fun _ _ _ _ => ⟨[], []⟩) (fun _ _ => ⟨200, "a"⟩) [] ⟨"c", "f", "YQ=="⟩
      ⟨"c", "q", 6⟩ none).1 (by decide) |>.1,
    (action_key_enforced "s" (by decide) (fun ts => ⟨200, ts.map (fun _ => [])⟩)
      (fun _ _ _ _ => ⟨[], []⟩) (fun _ _ => ⟨200, "a"⟩) [] ⟨"c", "f", "YQ=="⟩
      ⟨"c", "q", 6⟩ none).1 (by decide) |>.2,
    (action_key_enforced "s" (by decide) (fun ts => ⟨200, ts.map (fun _ => [])⟩)
      (fun _ _ _ _ => ⟨[], []⟩) (fun _ _ => ⟨200, "a"⟩) [] ⟨"c", "f", "YQ=="⟩
      ⟨"c", "q", 6⟩ none).2⟩

/-- C10: the API-key check raises exactly when the configured key is truthy
(set and non-empty, Python truthiness of `if ACTION_KEY`) and the supplied
key differs; with no truthy secret configured it never raises, and both
endpoints behave identically whatever the `x-api-key` header holds. -/
theorem action_key_absent (ak xk : Option String)
    (embedSvc : List String → EmbedResp) (queryFn : QueryFn)
    (chatSvc : String → String → ChatResp) (st : Store) (item : IngestItem)
    (req : AskRequest) (k1 k2 : Option String) :
    ((check_action_key ak xk).isSome = (pyTruthy ak && !(xk == ak))) ∧
    (pyTruthy ak = false → check_action_key ak xk = none) ∧
    (pyTruthy ak = false →
      ingest_json ⟨ak⟩ embedSvc st item k1 = ingest_json ⟨ak⟩ embedSvc st item k2 ∧
      ask ⟨ak⟩ queryFn chatSvc st req k1 = ask ⟨ak⟩ queryFn chatSvc st req k2) := by
  have hnone : pyTruthy ak = false → ∀ x, check_action_key ak x = none := by
    intro hf x
    cases ak with
    | none => rfl
    | some key =>
      have hkey : key = "" := by
        by_contra hkey
        rw [pyTruthy] at hf
        simp [hkey] at hf
      rw [check_action_key, if_neg]
      rintro ⟨hne, -⟩
      exact hne hkey
  refine ⟨?_, fun hf => hnone hf xk, ?_⟩
  · cases ak with
    | none => rfl
    | some key =>
      rw [check_action_key]
      by_cases h : key ≠ "" ∧ xk ≠ some key
      · rw [if_pos h, pyTruthy]
        obtain ⟨h1, h2⟩ := h
        simp [h1, h2]
      · rw [if_neg h]
        rw [Classical.not_and_iff_or_not_not] at h
        rcases h with h | h
        · rw [not_not] at h
          subst h
          simp [pyTruthy]
        · rw [not_not] at h
          subst h
          simp [pyTruthy]
  · intro hf
    constructor
    · rw [ingest_json, ingest_json, hnone hf k1, hnone hf k2]
    · rw [ask, ask, hnone hf k1, hnone hf k2]

/-- C10 witness: with the secret unset, both endpoints ignore the header. -/
theorem action_key_absent_witness :
    pyTruthy none = false ∧
    check_action_key none (some "anything") = none ∧
    ingest_json ⟨none⟩ (fun ts => ⟨200, ts.map (fun _ => [])⟩) []
        ⟨"c", "f", "YQ=="⟩ (some "x") =
      ingest_json ⟨none⟩ (fun ts => ⟨200, ts.map (fun _ => [])⟩) []
        ⟨"c", "f", "YQ=="⟩ none :=
  ⟨by decide,
    (action_key_absent none (some "anything") (fun ts => ⟨200, ts.map (fun _ => [])⟩)
      (fun _ _ _ _ => ⟨[], []⟩) (fun _ _ => ⟨200, "a"⟩) [] ⟨"c", "f", "YQ=="⟩
      ⟨"c", "q", 6⟩ (some "x") none).2.1 (by decide),
    ((action_key_absent none (some "anything") (fun ts => ⟨200, ts.map (fun _ => [])⟩)
      (fun _ _ _ _ => ⟨[], []⟩) (fun _ _ => ⟨200, "a"⟩) [] ⟨"c", "f", "YQ=="⟩
      ⟨"c", "q", 6⟩ (some "x") none).2.2 (by decide)).1⟩

/-! ## Claims about `/ask` -/

/-- C3: when the similarity query returns zero hits, `/ask` responds 200 with
the fixed sentinel answer and an empty sources list, and the generation
capability is never called. -/
theorem ask_zero_hits (cfg : Config) (queryFn : QueryFn)
    (chatSvc : String → String → ChatResp) (st : Store) (req : AskRequest)
    (xkey : Option String)
    (hauth : check_action_key cfg.actionKey xkey = none)
    (hzero : (queryFn (ensure_collection st req.client) (collection_name req.client)
        req.q req.top_k).documents.head?.getD [] = []) :
    ask cfg queryFn chatSvc st req xkey =
      ⟨.ok ⟨sentinelAnswer, []⟩, ensure_collection st req.client, []⟩ := by
  rw [ask, hauth]
  cases hdo : (queryFn (ensure_collection st req.client) (collection_name req.client)
      req.q req.top_k).documents with
  | nil => simp only [hdo]
  | cons d t =>
    have hd : d = [] := by
      rw [hdo] at hzero
      simpa using hzero
    subst hd
    simp only [hdo]
    simp

/-- C3 witness: a tenant with an empty query result gets the sentinel. -/
theorem ask_zero_hits_witness :
    check_action_key (none : Option String) none = none ∧
    ((⟨[], []⟩ : QueryResult).documents.head?.getD [] = ([] : List String)) ∧
    ask ⟨none⟩ (fun _ _ _ _ => ⟨[], []⟩) (fun _ _ => ⟨200, "a"⟩) [] ⟨"t", "q", 6⟩ none =
      ⟨.ok ⟨sentinelAnswer, []⟩, ensure_collection [] "t", []⟩ :=
  ⟨rfl, rfl,
    ask_zero_hits ⟨none⟩ (fun _ _ _ _ => ⟨[], []⟩) (fun _ _ => ⟨200, "a"⟩) []
      ⟨"t", "q", 6⟩ none rfl rfl⟩

theorem foldl_append_str : ∀ (l : List String) (a : String),
    l.foldl (fun x y => x ++ y) a = a ++ l.foldl (fun x y => x ++ y) ""
  | [], a => by simp [List.foldl]
  | x :: l, a => by
    rw [List.foldl_cons, List.foldl_cons, foldl_append_str l (a ++ x),
      foldl_append_str l ("" ++ x), String.empty_append, String.append_assoc]

theorem context_enum_eq_spec : ∀ (pairs : List (String × Meta)) (s : Nat),
    ((pairs.enumFrom s).map (fun p =>
        "[" ++ toString p.1 ++ "] " ++ metaGet p.2.2 "filename" "unknown" ++
          "\n" ++ p.2.1 ++ "\n\n")).foldl (fun a b => a ++ b) "" =
      contextSpec s pairs
  | [], _ => rfl
  | (d, m) :: rest, s => by
    rw [List.enumFrom_cons, List.map_cons, List.foldl_cons, String.empty_append,
      foldl_append_str, context_enum_eq_spec rest (s + 1), contextSpec]

theorem sources_enum_eq_spec : ∀ (pairs : List (String × Meta)) (s : Nat),
    (pairs.enumFrom s).map (fun p =>
        [("id", JVal.n p.1), ("filename", JVal.s (metaGet p.2.2 "filename" "unknown")),
          ("snippet", JVal.s (strTake p.2.1 240))]) =
      sourcesSpec s pairs
  | [], _ => rfl
  | (d, m) :: rest, s => by
    rw [List.enumFrom_cons, List.map_cons, sources_enum_eq_spec rest (s + 1), sourcesSpec]

theorem sourcesSpec_length : ∀ (pairs : List (String × Meta)) (s : Nat),
    (sourcesSpec s pairs).length = pairs.length
  | [], _ => rfl
  | (d, m) :: rest, s => by
    rw [sourcesSpec, List.length_cons, List.length_cons, sourcesSpec_length rest (s + 1)]

/-- C5: with at least one retrieved hit, the generation capability is called
exactly once, with the question and with the context string that
concatenates `"[<rank>] <filename>\n<document>\n\n"` over the hits in the
store's order, ranks starting at 1. -/
theorem ask_context_assembly (cfg : Config) (queryFn : QueryFn)
    (chatSvc : String → String → ChatResp) (st : Store) (req : AskRequest)
    (xkey : Option String) (ds : List String) (dtail : List (List String))
    (ms : List Meta) (mtail : List (List Meta))
    (hauth : check_action_key cfg.actionKey xkey = none)
    (hdocs : (queryFn (ensure_collection st req.client) (collection_name req.client)
        req.q req.top_k).documents = ds :: dtail)
    (hne : ds ≠ [])
    (hmetas : (queryFn (ensure_collection st req.client) (collection_name req.client)
        req.q req.top_k).metadatas = ms :: mtail)
    (hfn : ∀ m ∈ ms, (m.lookup "filename").isSome) :
    (ask cfg queryFn chatSvc st req xkey).genCalls =
      [(req.q, contextSpec 1 (ds.zip ms))] := by
  rw [ask, hauth]
  simp only [hdocs, hmetas]
  rw [if_neg hne]
  cases chat_answer chatSvc req.q
      (((((ds.zip ms)).enumFrom 1).map (fun p =>
        "[" ++ toString p.1 ++ "] " ++ metaGet p.2.2 "filename" "unknown" ++
          "\n" ++ p.2.1 ++ "\n\n")).foldl (fun a b => a ++ b) "") with
  | error e => simp only [context_enum_eq_spec]
  | ok answer => simp only [context_enum_eq_spec]

/-- C5 witness: one hit, context `"[1] lease.txt\nDoc one.\n\n"`. -/
theorem ask_context_assembly_witness :
    check_action_key (none : Option String) none = none ∧
    (["Doc one."] : List String) ≠ [] ∧
    (ask ⟨none⟩ (fun _ _ _ _ => ⟨[["Doc one."]], [[[("filename", "lease.txt")]]]⟩)
        (fun _ _ => ⟨200, "ans"⟩) [] ⟨"t", "q", 6⟩ none).genCalls =
      [("q", contextSpec 1 (["Doc one."].zip [[("filename", "lease.txt")]]))] :=
  ⟨rfl, by decide,
    ask_context_assembly ⟨none⟩
      (fun _ _ _ _ => ⟨[["Doc one."]], [[[("filename", "lease.txt")]]]⟩)
      (fun _ _ => ⟨200, "ans"⟩) [] ⟨"t", "q", 6⟩ none
      ["Doc one."] [] [[("filename", "lease.txt")]] [] rfl rfl (by decide) rfl
      (by decide)⟩

/-- C6 counterexample: at a concrete one-hit `/ask`, the source entry's keys
are `id`, `filename`, `snippet` — there is no `rank` key, contrary to the
claim's `{rank, filename, snippet}` shape. -/
theorem ask_sources_counterexample :
    (ask ⟨none⟩ (fun _ _ _ _ => ⟨[["Doc one."]], [[[("filename", "lease.txt")]]]⟩)
        (fun _ _ => ⟨200, "ans"⟩) [] ⟨"t", "q", 6⟩ none).resp =
      .ok ⟨"ans", [[("id", JVal.n 1), ("filename", JVal.s "lease.txt"),
        ("snippet", JVal.s "Doc one.")]]⟩ ∧
    ([("id", JVal.n 1), ("filename", JVal.s "lease.txt"),
        ("snippet", JVal.s "Doc one.")] : SourceEntry) ≠
      [("rank", JVal.n 1), ("filename", JVal.s "lease.txt"),
        ("snippet", JVal.s "Doc one.")] :=
  ⟨rfl, by decide⟩

/-- C6 (amended): with `n ≥ 1` retrieved hits and a successful generation
call, the response's sources list has exactly `n` entries in the store's
order, entry `i` (1-based) being `{id: i, filename: <hit's filename>,
snippet: <first 240 characters of the document>}`. -/
theorem ask_sources_list (cfg : Config) (queryFn : QueryFn)
    (chatSvc : String → String → ChatResp) (st : Store) (req : AskRequest)
    (xkey : Option String) (ds : List String) (dtail : List (List String))
    (ms : List Meta) (mtail : List (List Meta))
    (hauth : check_action_key cfg.actionKey xkey = none)
    (hdocs : (queryFn (ensure_collection st req.client) (collection_name req.client)
        req.q req.top_k).documents = ds :: dtail)
    (hne : ds ≠ [])
    (hmetas : (queryFn (ensure_collection st req.client) (collection_name req.client)
        req.q req.top_k).metadatas = ms :: mtail)
    (hlen : ds.length = ms.length)
    (hfn : ∀ m ∈ ms, (m.lookup "filename").isSome)
    (hchat : (chatSvc req.q (contextSpec 1 (ds.zip ms))).status = 200) :
    (ask cfg queryFn chatSvc st req xkey).resp =
      .ok ⟨(chatSvc req.q (contextSpec 1 (ds.zip ms))).content,
        sourcesSpec 1 (ds.zip ms)⟩ ∧
    (sourcesSpec 1 (ds.zip ms)).length = ds.length := by
  constructor
  · rw [ask, hauth]
    simp only [hdocs, hmetas]
    rw [if_neg hne]
    rw [context_enum_eq_spec, sources_enum_eq_spec]
    rw [chat_answer, if_neg (by rw [hchat]; simp)]
  · rw [sourcesSpec_length, List.length_zip, hlen]
    simp

/-- C6 witness: the amended theorem at a concrete one-hit request. -/
theorem ask_sources_list_witness :
    (["Doc one."] : List String).length = ([[("filename", "lease.txt")]] : List Meta).length ∧
    (ask ⟨none⟩ (fun _ _ _ _ => ⟨[["Doc one."]], [[[("filename", "lease.txt")]]]⟩)
        (fun _ _ => ⟨200, "ans"⟩) [] ⟨"t", "q", 6⟩ none).resp =
      .ok ⟨"ans", sourcesSpec 1 (["Doc one."].zip [[("filename", "lease.txt")]])⟩ ∧
    (sourcesSpec 1 (["Doc one."].zip [[("filename", "lease.txt")]])).length = 1 :=
  ⟨rfl,
    (ask_sources_list ⟨none⟩
      (fun _ _ _ _ => ⟨[["Doc one."]], [[[("filename", "lease.txt")]]]⟩)
      (fun _ _ => ⟨200, "ans"⟩) [] ⟨"t", "q", 6⟩ none
      ["Doc one."] [] [[("filename", "lease.txt")]] [] rfl rfl (by decide) rfl rfl
      (by decide) rfl).1,
    (ask_sources_list ⟨none⟩
      (fun _ _ _ _ => ⟨[["Doc one."]], [[[("filename", "lease.txt")]]]⟩)
      (fun _ _ => ⟨200, "ans"⟩) [] ⟨"t", "q", 6⟩ none
      ["Doc one."] [] [[("filename", "lease.txt")]] [] rfl rfl (by decide) rfl rfl
      (by decide) rfl).2⟩

/-! ## Store-effect lemmas -/

theorem ensure_lookup_self (st : Store) (c : String) :
    ((ensure_collection st c).lookup (collection_name c)).isSome = true := by
  rw [ensure_collection]
  by_cases h : (st.lookup (collection_name c)).isSome
  · rw [if_pos h]
    exact h
  · rw [if_neg h]
    simp [List.lookup]

theorem ensure_preserves {st : Store} {n : String} (c : String)
    (h : (st.lookup n).isSome = true) :
    ((ensure_collection st c).lookup n).isSome = true := by
  rw [ensure_collection]
  by_cases hp : (st.lookup (collection_name c)).isSome
  · rw [if_pos hp]
    exact h
  · rw [if_neg hp]
    by_cases hn : n = collection_name c
    · simp [List.lookup, hn]
    · simp only [List.lookup]
      have hb : (n == collection_name c) = false := by simpa using hn
      rw [hb]
      exact h

theorem setPartition_lookup_isSome (st : Store) (m n : String) (p : Partition) :
    ((setPartition st m p).lookup n).isSome = (st.lookup n).isSome := by
  induction st with
  | nil => rfl
  | cons kv t ih =>
    rw [setPartition, List.map_cons, ← setPartition]
    by_cases hk : kv.1 = m
    · rw [if_pos hk]
      by_cases hn : n = kv.1
      · simp [List.lookup, hn]
      · simp only [List.lookup]
        have hb : (n == kv.1) = false := by simpa using hn
        rw [hb]
        exact ih
    · rw [if_neg hk]
      rcases kv with ⟨k, v⟩
      by_cases hn : n = k
      · simp [List.lookup, hn]
      · simp only [List.lookup]
        have hb : (n == k) = false := by simpa using hn
        rw [hb]
        exact ih

theorem ask_store (cfg : Config) (queryFn : QueryFn)
    (chatSvc : String → String → ChatResp) (st : Store) (req : AskRequest)
    (xkey : Option String) (hauth : check_action_key cfg.actionKey xkey = none) :
    (ask cfg queryFn chatSvc st req xkey).store = ensure_collection st req.client := by
  simp only [ask, hauth]
  split
  · rfl
  · split
    · rfl
    · split
      · rfl
      · split
        · rfl
        · rfl

theorem search_store (queryFn : QueryFn) (st : Store) (client q : String)
    (top_k : Int) : (search queryFn st client q top_k).2 = ensure_collection st client := by
  simp only [search]
  split
  · rfl
  · rfl

/-- C2 (amended): ingest is atomic-or-nothing — whenever `/ingest_json` fails
(401 auth, 400 invalid base64, 400 empty chunk set — the case input `"%%%"`
actually reaches, since its permissive base64 decode yields empty bytes —
or 502 embedding failure), nothing is written: the store, and in particular
every partition and its count, is unchanged. -/
theorem ingest_atomic (cfg : Config) (embedSvc : List String → EmbedResp)
    (st : Store) (item : IngestItem) (xkey : Option String) (e : HErr) :
    (ingest_json cfg embedSvc st item xkey).resp = .error e →
    (ingest_json cfg embedSvc st item xkey).store = st := by
  simp only [ingest_json]
  split
  · intro _
    rfl
  · split
    · intro _
      rfl
    · split
      · intro _
        rfl
      · split
        · intro _
          rfl
        · intro h
          exact absurd h (by simp)

/-- C2 witness: a failing embedding call (HTTP 500 upstream) aborts the
ingest with a 502 and leaves a non-empty store untouched. -/
theorem ingest_atomic_witness :
    (ingest_json ⟨none⟩ (fun _ => ⟨500, []⟩) [("docs_c", [⟨"x", "y", [], []⟩])]
        ⟨"c", "f", "YQ=="⟩ none).resp = .error ⟨502, "Embed failed"⟩ ∧
    (ingest_json ⟨none⟩ (fun _ => ⟨500, []⟩) [("docs_c", [⟨"x", "y", [], []⟩])]
        ⟨"c", "f", "YQ=="⟩ none).store = [("docs_c", [⟨"x", "y", [], []⟩])] :=
  ⟨rfl,
    ingest_atomic ⟨none⟩ (fun _ => ⟨500, []⟩) [("docs_c", [⟨"x", "y", [], []⟩])]
      ⟨"c", "f", "YQ=="⟩ none ⟨502, "Embed failed"⟩ rfl⟩

/-- C2 counterexample: the input `"%%%"` is not a base64-decode failure —
its permissive decode succeeds with empty bytes, so the request fails with
the 400 "No text chunks" error, not the 400 "Invalid base64" one. -/
theorem ingest_b64_counterexample :
    pyB64Decode "%%%" = some [] ∧
    (ingest_json ⟨none⟩ (fun ts => ⟨200, ts.map (fun _ => [])⟩) []
        ⟨"c", "f", "%%%"⟩ none).resp = .error ⟨400, "No text chunks"⟩ ∧
    (⟨400, "No text chunks"⟩ : HErr) ≠ ⟨400, "Invalid base64"⟩ :=
  ⟨rfl, rfl, by decide⟩

theorem ingest_ok_ensures (cfg : Config) (embedSvc : List String → EmbedResp)
    (st : Store) (item : IngestItem) (xkey : Option String) (r : IngestResp) :
    (ingest_json cfg embedSvc st item xkey).resp = .ok r →
    ((ingest_json cfg embedSvc st item xkey).store.lookup
      (collection_name item.client)).isSome = true := by
  simp only [ingest_json]
  split
  · intro h
    exact absurd h (by simp)
  · split
    · intro h
      exact absurd h (by simp)
    · split
      · intro h
        exact absurd h (by simp)
      · split
        · intro h
          exact absurd h (by simp)
        · intro _
          rw [setPartition_lookup_isSome]
          exact ensure_lookup_self st item.client

theorem ingest_preserves (cfg : Config) (embedSvc : List String → EmbedResp)
    (st : Store) (item : IngestItem) (xkey : Option String) {n : String}
    (h : (st.lookup n).isSome = true) :
    ((ingest_json cfg embedSvc st item xkey).store.lookup n).isSome = true := by
  simp only [ingest_json]
  split
  · exact h
  · split
    · exact h
    · split
      · exact h
      · split
        · exact h
        · rw [setPartition_lookup_isSome]
          exact ensure_preserves item.client h

/-- C9: every tenant-taking endpoint resolves the tenant's partition with
create-if-absent semantics: `GET /stats` on a never-seen tenant mutates the
store, creating the empty partition, and reports count 0; after `stats` and
`search` (and after `ask` past auth, and a successful `ingest_json`) the
tenant's partition exists; and no endpoint ever deletes a partition. -/
theorem tenant_partition_lifecycle (st : Store) (client q : String) (top_k : Int)
    (queryFn : QueryFn) (chatSvc : String → String → ChatResp)
    (embedSvc : List String → EmbedResp) (cfg : Config) (req : AskRequest)
    (item : IngestItem) (xkey : Option String) (r : IngestResp) (n : String) :
    (st.lookup (collection_name client) = none →
      stats st client = (⟨client, 0⟩, (collection_name client, []) :: st)) ∧
    ((stats st client).2.lookup (collection_name client)).isSome = true ∧
    ((search queryFn st client q top_k).2.lookup (collection_name client)).isSome = true ∧
    (check_action_key cfg.actionKey xkey = none →
      ((ask cfg queryFn chatSvc st req xkey).store.lookup
        (collection_name req.client)).isSome = true) ∧
    ((ingest_json cfg embedSvc st item xkey).resp = .ok r →
      ((ingest_json cfg embedSvc st item xkey).store.lookup
        (collection_name item.client)).isSome = true) ∧
    ((st.lookup n).isSome = true →
      ((stats st client).2.lookup n).isSome = true ∧
      ((search queryFn st client q top_k).2.lookup n).isSome = true ∧
      ((ask cfg queryFn chatSvc st req xkey).store.lookup n).isSome = true ∧
      ((ingest_json cfg embedSvc st item xkey).store.lookup n).isSome = true) := by
  refine ⟨?_, ?_, ?_, ?_, ingest_ok_ensures cfg embedSvc st item xkey r, ?_⟩
  · intro h
    rw [stats, ensure_collection, if_neg (by simp [h])]
    have hp : getPartition ((collection_name client, []) :: st)
        (collection_name client) = [] := by
      simp [getPartition, List.lookup]
    rw [hp]
    rfl
  · rw [stats]
    exact ensure_lookup_self st client
  · rw [search_store]
    exact ensure_lookup_self st client
  · intro hauth
    rw [ask_store cfg queryFn chatSvc st req xkey hauth]
    exact ensure_lookup_self st req.client
  · intro h
    refine ⟨ensure_preserves client h, ?_, ?_, ingest_preserves cfg embedSvc st item xkey h⟩
    · rw [search_store]
      exact ensure_preserves client h
    · cases hc : check_action_key cfg.actionKey xkey with
      | none =>
        rw [ask_store cfg queryFn chatSvc st req xkey hc]
        exact ensure_preserves req.client h
      | some e =>
        have hst : (ask cfg queryFn chatSvc st req xkey).store = st := by
          simp only [ask, hc]
        rw [hst]
        exact h

/-- C9 witness: a never-seen tenant's `stats` creates the empty partition and
reports count 0; an existing partition survives `stats` on another tenant. -/
theorem tenant_partition_lifecycle_witness :
    (List.lookup (collection_name "t") ([] : Store) = none) ∧
    stats [] "t" = (⟨"t", 0⟩, [(collection_name "t", [])]) ∧
    ((List.lookup "docs_a" ([("docs_a", [⟨"i", "d", [], []⟩])] : Store)).isSome = true) ∧
    ((stats [("docs_a", [⟨"i", "d", [], []⟩])] "t").2.lookup "docs_a").isSome = true :=
  ⟨rfl,
    (tenant_partition_lifecycle [] "t" "q" 6 (fun _ _ _ _ => ⟨[], []⟩)
      (fun _ _ => ⟨200, "a"⟩) (fun ts => ⟨200, ts.map (fun _ => [])⟩) ⟨none⟩
      ⟨"t", "q", 6⟩ ⟨"t", "f", "YQ=="⟩ none ⟨true, "t", "f", 1⟩ "docs_a").1 rfl,
    by decide,
    ((tenant_partition_lifecycle [("docs_a", [⟨"i", "d", [], []⟩])] "t" "q" 6
      (fun _ _ _ _ => ⟨[], []⟩) (fun _ _ => ⟨200, "a"⟩)
      (fun ts => ⟨200, ts.map (fun _ => [])⟩) ⟨none⟩ ⟨"t", "q", 6⟩
      ⟨"t", "f", "YQ=="⟩ none ⟨true, "t", "f", 1⟩ "docs_a").2.2.2.2.2
      (by decide)).1⟩

theorem zip4_range_enumFrom : ∀ (chunks : List String) (vecs : List Vec) (s : Nat)
    (fn : String), vecs.length = chunks.length →
    ((List.range' s chunks.length).map (fun i => fn ++ ":" ++ toString i)).zip
        (chunks.zip ((chunks.map (fun _ => ([("filename", fn)] : Meta))).zip vecs)) =
      ((chunks.zip vecs).enumFrom s).map (fun p =>
        (fn ++ ":" ++ toString p.1, p.2.1, ([("filename", fn)] : Meta), p.2.2))
  | [], vecs, s, fn, h => by simp
  | c :: cs, vecs, s, fn, h => by
    cases vecs with
    | nil => simp at h
    | cons v vs =>
      have h' : vs.length = cs.length := by simpa using h
      have hr : List.range' s (c :: cs).length = s :: List.range' (s + 1) cs.length := rfl
      rw [hr, List.map_cons, List.map_cons, List.zip_cons_cons, List.zip_cons_cons,
        List.zip_cons_cons, List.zip_cons_cons, List.enumFrom_cons, List.map_cons,
        zip4_range_enumFrom cs vs (s + 1) fn h']

/-- C1: a successful `/ingest_json` whose decoded text chunks into `N`
non-empty pieces reports `added = N` and upserts, into the tenant's
partition, exactly the `N` tuples `(<filename>:<i>, chunk_i,
{filename: <filename>}, vec_i)` for `i` in `0..N-1`, chunks in original
order; the embedding capability is called once, on the chunk list. -/
theorem ingest_success (cfg : Config) (embedSvc : List String → EmbedResp)
    (st : Store) (item : IngestItem) (xkey : Option String) (bytes : List Nat)
    (chunks : List String) (vecs : List Vec)
    (hauth : check_action_key cfg.actionKey xkey = none)
    (hdec : pyB64Decode item.content_b64 = some bytes)
    (hchunks : chunkStr (utf8DecodeIgnoreStr bytes) = chunks)
    (hne : chunks ≠ [])
    (hemb : embedSvc chunks = ⟨200, vecs⟩)
    (hlen : vecs.length = chunks.length) :
    ingest_json cfg embedSvc st item xkey =
      ⟨.ok ⟨true, item.client, item.filename, chunks.length⟩,
        setPartition (ensure_collection st item.client) (collection_name item.client)
          (upsertMany (getPartition (ensure_collection st item.client)
              (collection_name item.client))
            ((List.range chunks.length).map (fun i => item.filename ++ ":" ++ toString i))
            chunks (chunks.map (fun _ => [("filename", item.filename)])) vecs),
        [chunks]⟩ ∧
    ((List.range chunks.length).map (fun i => item.filename ++ ":" ++ toString i)).zip
        (chunks.zip ((chunks.map (fun _ => ([("filename", item.filename)] : Meta))).zip
          vecs)) =
      ((chunks.zip vecs).enum).map (fun p =>
        (item.filename ++ ":" ++ toString p.1, p.2.1,
          ([("filename", item.filename)] : Meta), p.2.2)) := by
  constructor
  · simp only [ingest_json, hauth, hdec, hchunks]
    rw [if_neg hne]
    simp only [embed_texts, hemb]
    simp
  · rw [List.range_eq_range', List.enum]
    exact zip4_range_enumFrom chunks vecs 0 item.filename hlen

/-- C1 witness: ingesting base64 of `"a\n\nb"` for tenant `"T"` adds 2 chunks
with ids `f.txt:0`, `f.txt:1`. -/
theorem ingest_success_witness :
    pyB64Decode "YQoKYg==" = some [97, 10, 10, 98] ∧
    chunkStr (utf8DecodeIgnoreStr [97, 10, 10, 98]) = ["a", "b"] ∧
    (ingest_json ⟨none⟩ (fun ts => ⟨200, ts.map (fun _ => [1])⟩) []
        ⟨"T", "f.txt", "YQoKYg=="⟩ none =
      ⟨.ok ⟨true, "T", "f.txt", 2⟩,
        setPartition (ensure_collection [] "T") (collection_name "T")
          (upsertMany (getPartition (ensure_collection [] "T") (collection_name "T"))
            ((List.range 2).map (fun i => "f.txt" ++ ":" ++ toString i))
            ["a", "b"] ((["a", "b"] : List String).map (fun _ => [("filename", "f.txt")]))
            [[1], [1]]),
        [["a", "b"]]⟩) ∧
    ((List.range (["a", "b"] : List String).length).map
        (fun i => "f.txt" ++ ":" ++ toString i)).zip
        ((["a", "b"] : List String).zip
          (((["a", "b"] : List String).map
            (fun _ => ([("filename", "f.txt")] : Meta))).zip [[1], [1]])) =
      (((["a", "b"] : List String).zip ([[1], [1]] : List Vec)).enum).map (fun p =>
        ("f.txt" ++ ":" ++ toString p.1, p.2.1,
          ([("filename", "f.txt")] : Meta), p.2.2)) :=
  ⟨rfl, rfl,
    (ingest_success ⟨none⟩ (fun ts => ⟨200, ts.map (fun _ => [1])⟩) []
      ⟨"T", "f.txt", "YQoKYg=="⟩ none [97, 10, 10, 98] ["a", "b"] [[1], [1]]
      rfl rfl rfl (by decide) rfl rfl).1,
    (ingest_success ⟨none⟩ (fun ts => ⟨200, ts.map (fun _ => [1])⟩) []
      ⟨"T", "f.txt", "YQoKYg=="⟩ none [97, 10, 10, 98] ["a", "b"] [[1], [1]]
      rfl rfl rfl (by decide) rfl rfl).2⟩
